import Mathlib

/-!
Verification development for the Morning Tide repository.

The frontend helpers (`resolveImageSrc`, `getTimeAgo`, `getPaperCategory`) are
translated from the React sources.  The selection funnel (window gate, L1
heuristic filter, L2 composite scorer, L3 refiner, history ledger) lives in the
Python pipeline, which is documented in the specification; those parts are
modelled from the spec.
-/

namespace MorningTide

/-- Strings are modelled as lists of characters. -/
abbrev Str := List Char

/-- Whitespace test used to model the JavaScript string trim. -/
def wsChar (c : Char) : Bool := c.isWhitespace

/-- JavaScript-style trim: strip whitespace from both ends of the string. -/
def jsTrim (s : Str) : Str := ((s.dropWhile wsChar).reverse.dropWhile wsChar).reverse

/-- JavaScript-style startsWith on character lists. -/
def startsWith (p s : Str) : Bool := p.isPrefixOf s

/-! ## `resolveImageSrc` (news section component) -/

/-- The fallback placeholder image: `BASE_URL` + `placeholder.svg`, as in the
news section component.  `BASE_URL` is a build-time parameter. -/
def FALLBACK_IMAGE (baseUrl : Str) : Str := baseUrl ++ "placeholder.svg".toList

/-- Body of `resolveImageSrc` after the trim, on the local `value`. -/
def resolveVal (baseUrl : Str) (value : Str) : Str :=
  if value = [] then FALLBACK_IMAGE baseUrl
  else if startsWith "data:".toList value || startsWith "javascript:".toList value then
    FALLBACK_IMAGE baseUrl
  else if startsWith "http://".toList value || startsWith "https://".toList value then value
  else if startsWith "/".toList value then baseUrl ++ value.dropWhile (· = '/')
  else FALLBACK_IMAGE baseUrl

/-- `resolveImageSrc` from the news section component; `rawUrl = none` models a
missing argument. -/
def resolveImageSrc (baseUrl : Str) (rawUrl : Option Str) : Str :=
  resolveVal baseUrl (jsTrim (rawUrl.getD []))

/-! ## `getPaperCategory` (papers section component) -/

/-- The fields of the frontend `Paper` record consulted by `getPaperCategory`. -/
structure Paper where
  title : Str
  paperCategory : Option Str
  tags : Option (List Str)

/-- `CATEGORY_ORDER` from the papers section component. -/
def CATEGORY_ORDER : List Str :=
  ["General AI".toList, "Computer Vision".toList, "Robotics".toList]

/-- `getPaperCategory` from the papers section component. -/
def getPaperCategory (p : Paper) : Str :=
  let rawCategory := jsTrim (p.paperCategory.getD [])
  if rawCategory ≠ [] ∧ rawCategory ∈ CATEGORY_ORDER then rawCategory
  else
    let tags := (p.tags.getD []).map (fun tag => tag.map Char.toLower)
    if "robotics".toList ∈ tags then "Robotics".toList
    else "General AI".toList

/-! ## `getTimeAgo` (news section component) -/

/-- The label dictionary passed to `getTimeAgo`. -/
structure TimeLabels where
  today : String
  justNow : String
  yesterday : String
  hoursAgo : String
  daysAgo : String

/-- The numeric part of `getTimeAgo`, on the age in milliseconds. -/
def timeAgoOfMs (diffMs : Int) (labels : TimeLabels) : String :=
  let diffHours := Int.fdiv diffMs 3600000
  if diffHours < 1 then labels.justNow
  else if diffHours < 24 then toString diffHours ++ labels.hoursAgo
  else
    let diffDays := Int.fdiv diffHours 24
    if diffDays = 1 then labels.yesterday
    else toString diffDays ++ labels.daysAgo

/-- `getTimeAgo` from the news section component.  The JavaScript date parser
is an external capability, passed as `parse`; it returns the epoch
milliseconds, or `none` when the date is invalid (`NaN`).  A `none`
`publishedAt` models both `null` and `undefined`; the empty string is falsy in
JavaScript and is handled before parsing, as in the source. -/
def getTimeAgo (parse : String → Option Int) (nowMs : Int) (publishedAt : Option String)
    (labels : TimeLabels) : String :=
  match publishedAt with
  | none => labels.today
  | some s =>
    if s = "" then labels.today
    else
      match parse s with
      | none => labels.today
      | some t => timeAgoOfMs (nowMs - t) labels

/-- C8 as literally stated: over the untrimmed input string, the result is the
fallback, or the input itself when the input starts with `http://` or
`https://`, or a `BASE_URL`-prefixed path when the input starts with `/`. -/
def resolveImageSrcClaimAsStated (baseUrl : Str) (s : Str) : Prop :=
  resolveImageSrc baseUrl (some s) = FALLBACK_IMAGE baseUrl
  ∨ ((startsWith "http://".toList s = true ∨ startsWith "https://".toList s = true)
      ∧ resolveImageSrc baseUrl (some s) = s)
  ∨ (startsWith "/".toList s = true
      ∧ ∃ rest, resolveImageSrc baseUrl (some s) = baseUrl ++ rest)

/-! ## Pipeline model, modelled from the spec

The selection funnel lives in the Python pipeline (`pipeline/`), which is not
part of the repository snapshot; the definitions below are modelled from the
specification (§3-§4.5, §6, §7). -/

/-- Modelled from the spec: item kind (§3). -/
inductive Kind
  | paper
  | news
deriving DecidableEq

/-- Modelled from the spec: the canonical candidate item (§3 CandidateItem);
the concrete Canonicalizer is not in the repository snapshot. -/
structure CandidateItem where
  id : Nat
  kind : Kind
  title : Str
  summaryRaw : Str
  sourceName : Str
  sourceCategory : Str
  publishedAt : Option Int
  popularitySignal : Option ℚ
  isWhitelisted : Bool
deriving DecidableEq

/-- Modelled from the spec: the configuration surface consumed by the core
(§6); the concrete `pipeline/config.py` is not in the repository snapshot. -/
structure PipelineConfig where
  keywords : List Str
  noisePatterns : List Str
  popularityThresholds : List (Str × ℚ)
  normPop : Str → ℚ → ℚ
  whitelistBonus : ℚ
  sourceWeights : List (Str × ℚ)
  l2Limit : Nat
  paperSubquotas : List (Str × Nat)
  newsTotal : Nat
  ledgerCap : Nat
  horizonDays : Int
  calendarMode : Bool
  noTimestampOkCategories : List Str

/-- Case-insensitive substring containment (§4.2 keyword gate). -/
def lcContains (hay term : Str) : Bool :=
  decide ((term.map Char.toLower) <:+: (hay.map Char.toLower))

/-- The text the L1 rules inspect: title plus raw summary (§4.2). -/
def itemText (it : CandidateItem) : Str := it.title ++ it.summaryRaw

/-- Modelled from the spec: the L1 keyword gate (§4.2 rule 2). -/
def keywordHit (cfg : PipelineConfig) (it : CandidateItem) : Bool :=
  cfg.keywords.any fun k => lcContains (itemText it) k

/-- Modelled from the spec: the L1 noise rejection (§4.2 rule 3). -/
def noiseHit (cfg : PipelineConfig) (it : CandidateItem) : Bool :=
  cfg.noisePatterns.any fun pat => lcContains (itemText it) pat

/-- Modelled from the spec: the L1 popularity threshold (§4.2 rule 4) — a
minimum normalized signal is required only for categories that define one. -/
def popPass (cfg : PipelineConfig) (it : CandidateItem) : Bool :=
  match cfg.popularityThresholds.lookup it.sourceCategory with
  | none => true
  | some threshold =>
    match it.popularitySignal with
    | none => false
    | some v => decide (threshold ≤ cfg.normPop it.sourceCategory v)

/-- Modelled from the spec: L1 rejection reasons (§4.2). -/
inductive RejectReason
  | off_topic
  | noise_pattern
  | below_popularity_threshold
deriving DecidableEq

/-- Modelled from the spec: the outcome of the L1 rules for one item. -/
inductive L1Verdict
  | whitelisted
  | rejected (reason : RejectReason)
  | toL2
deriving DecidableEq

/-- Modelled from the spec: the ordered L1 rules (§4.2) — whitelist bypass
first, then keyword gate, noise rejection, popularity threshold. -/
def l1Verdict (cfg : PipelineConfig) (it : CandidateItem) : L1Verdict :=
  if it.isWhitelisted then .whitelisted
  else if keywordHit cfg it = false then .rejected .off_topic
  else if noiseHit cfg it then .rejected .noise_pattern
  else if popPass cfg it = false then .rejected .below_popularity_threshold
  else .toL2

/-- Modelled from the spec: the L1 bypass marking (§4.2 rule 1). -/
structure L1Item where
  item : CandidateItem
  bypassL1 : Bool
  bypassL2 : Bool

/-- Modelled from the spec: mark the bypass flags set by the whitelist rule. -/
def l1Mark (it : CandidateItem) : L1Item := ⟨it, it.isWhitelisted, it.isWhitelisted⟩

/-- Modelled from the spec: the L1 whitelisted pool — bypasses L2 (§4.2). -/
def whitelistedPool (cfg : PipelineConfig) (items : List CandidateItem) : List CandidateItem :=
  items.filter fun it => decide (l1Verdict cfg it = .whitelisted)

/-- Modelled from the spec: the pool of L1 survivors that proceed to scoring. -/
def l2Pool (cfg : PipelineConfig) (items : List CandidateItem) : List CandidateItem :=
  items.filter fun it => decide (l1Verdict cfg it = .toL2)

/-- Whether an L1 verdict is a rejection. -/
def isRejectedVerdict : L1Verdict → Bool
  | .rejected _ => true
  | _ => false

/-- Modelled from the spec: the rejected set, kept for observability (§4.2). -/
def rejectedPool (cfg : PipelineConfig) (items : List CandidateItem) : List CandidateItem :=
  items.filter fun it => isRejectedVerdict (l1Verdict cfg it)

/-- Modelled from the spec: a scored item (§3 ScoredItem). -/
structure ScoredItem where
  item : CandidateItem
  aiScore : ℚ
  compositeScore : ℚ
  scoringFailed : Bool
deriving DecidableEq

/-- Modelled from the spec: popularity normalized per source category (§4.3);
a missing signal normalizes to 0. -/
def normalizedPopularity (cfg : PipelineConfig) (it : CandidateItem) : ℚ :=
  match it.popularitySignal with
  | none => 0
  | some v => cfg.normPop it.sourceCategory v

/-- Modelled from the spec: the per-source additive weight, defaulting to 0
for sources not in the configured table (§4.3). -/
def sourceWeight (cfg : PipelineConfig) (it : CandidateItem) : ℚ :=
  (cfg.sourceWeights.lookup it.sourceName).getD 0

/-- Modelled from the spec: the whitelist bonus, applied only to whitelisted
items (§4.3). -/
def whitelistBonusOf (cfg : PipelineConfig) (it : CandidateItem) : ℚ :=
  if it.isWhitelisted then cfg.whitelistBonus else 0

/-- Modelled from the spec: the composite score formula (§4.3):
`aiScore*0.6 + normalizedPopularity*0.4 + whitelistBonus + sourceWeight`. -/
def compositeScoreOf (cfg : PipelineConfig) (it : CandidateItem) (ai : ℚ) : ℚ :=
  ai * (6 / 10) + normalizedPopularity cfg it * (4 / 10)
    + whitelistBonusOf cfg it + sourceWeight cfg it

/-- Modelled from the spec: score one item; the remote capability is the
`aiOf` oracle (§4.3). -/
def scoreItem (cfg : PipelineConfig) (aiOf : CandidateItem → ℚ) (it : CandidateItem) :
    ScoredItem :=
  ⟨it, aiOf it, compositeScoreOf cfg it (aiOf it), false⟩

/-- Modelled from the spec: the L2 scorer applied to a pool. -/
def scoreL2 (cfg : PipelineConfig) (aiOf : CandidateItem → ℚ)
    (items : List CandidateItem) : List ScoredItem :=
  items.map (scoreItem cfg aiOf)

/-- A scored item annotated with its stable input position, for ranking. -/
structure RankedItem where
  s : ScoredItem
  idx : Nat
deriving DecidableEq

/-- The recency key: a missing `publishedAt` ranks below every timestamp. -/
def pubKey : Option Int → WithBot Int
  | none => ⊥
  | some t => (t : WithBot Int)

/-- Modelled from the spec: the L2 ranking order (§4.3) — descending composite
score, ties by more recent `publishedAt`, remaining ties by stable input
order. -/
def rankLE (a b : RankedItem) : Prop :=
  b.s.compositeScore < a.s.compositeScore
  ∨ (a.s.compositeScore = b.s.compositeScore
      ∧ (pubKey b.s.item.publishedAt < pubKey a.s.item.publishedAt
          ∨ (pubKey a.s.item.publishedAt = pubKey b.s.item.publishedAt ∧ a.idx ≤ b.idx)))

instance : DecidableRel rankLE := fun a b => by
  unfold rankLE
  infer_instance

instance : IsTrans RankedItem rankLE := by
  constructor
  intro a b c hab hbc
  rcases hab with h1 | ⟨e1, h1⟩ <;> rcases hbc with h2 | ⟨e2, h2⟩
  · exact Or.inl (lt_trans h2 h1)
  · exact Or.inl (e2 ▸ h1)
  · exact Or.inl (e1 ▸ h2)
  · refine Or.inr ⟨e1.trans e2, ?_⟩
    rcases h1 with p1 | ⟨q1, i1⟩ <;> rcases h2 with p2 | ⟨q2, i2⟩
    · exact Or.inl (lt_trans p2 p1)
    · exact Or.inl (q2 ▸ p1)
    · exact Or.inl (q1 ▸ p2)
    · exact Or.inr ⟨q1.trans q2, le_trans i1 i2⟩

instance : IsTotal RankedItem rankLE := by
  constructor
  intro a b
  rcases lt_trichotomy a.s.compositeScore b.s.compositeScore with h | h | h
  · exact Or.inr (Or.inl h)
  · rcases lt_trichotomy (pubKey a.s.item.publishedAt) (pubKey b.s.item.publishedAt)
      with hp | hp | hp
    · exact Or.inr (Or.inr ⟨h.symm, Or.inl hp⟩)
    · rcases Nat.le_total a.idx b.idx with hi | hi
      · exact Or.inl (Or.inr ⟨h, Or.inr ⟨hp, hi⟩⟩)
      · exact Or.inr (Or.inr ⟨h.symm, Or.inr ⟨hp.symm, hi⟩⟩)
    · exact Or.inl (Or.inr ⟨h, Or.inl hp⟩)
  · exact Or.inl (Or.inl h)

/-- Annotate scored items with their stable input positions, from `n` up. -/
def indexItemsFrom (n : Nat) : List ScoredItem → List RankedItem
  | [] => []
  | s :: rest => ⟨s, n⟩ :: indexItemsFrom (n + 1) rest

/-- Annotate scored items with their stable input positions. -/
def indexItems (l : List ScoredItem) : List RankedItem := indexItemsFrom 0 l

/-- Modelled from the spec: sort by the ranking order (§4.3). -/
def rankItems (l : List ScoredItem) : List RankedItem :=
  List.insertionSort rankLE (indexItems l)

/-- Restrict scored items to one kind. -/
def kindFilter (k : Kind) (l : List ScoredItem) : List ScoredItem :=
  l.filter fun s => decide (s.item.kind = k)

/-- Modelled from the spec: the per-kind ranking (§4.3). -/
def rankKind (k : Kind) (l : List ScoredItem) : List RankedItem :=
  rankItems (kindFilter k l)

/-- Modelled from the spec: keep the top N per kind (§4.3). -/
def l2Truncate (cfg : PipelineConfig) (ranked : List RankedItem) : List RankedItem :=
  ranked.take cfg.l2Limit

/-- Modelled from the spec: the L3 candidate pool per kind — whitelisted items
bypass L2 and join directly; L2 survivors join through scoring, ranking and
truncation (§4.2, §4.3). -/
def l3CandidatePool (cfg : PipelineConfig) (aiOf : CandidateItem → ℚ)
    (items : List CandidateItem) (k : Kind) : List CandidateItem :=
  (whitelistedPool cfg items).filter (fun it => decide (it.kind = k))
    ++ (l2Truncate cfg (rankKind k (scoreL2 cfg aiOf (l2Pool cfg items)))).map
        (fun r => r.s.item)

/-- Modelled from the spec: candidates of one paper category, in pool order. -/
def eligibleFor (cat : Str) (pool : List CandidateItem) : List CandidateItem :=
  pool.filter fun it => decide (it.sourceCategory = cat)

/-- Modelled from the spec: per-category selection in L3 Selecting (§4.4) —
each subquota takes from its own category only, in pool order. -/
def selectForCategory (pool : List CandidateItem) (cat : Str) (q : Nat) :
    List CandidateItem :=
  (eligibleFor cat pool).take q

/-- Modelled from the spec: non-fatal run warnings (§7). -/
inductive RunWarning
  | quota_shortfall (cat : Str)
deriving DecidableEq

/-- Modelled from the spec: paper selection under per-category subquotas, with
a shortfall warning and no redistribution when a category cannot fill its
subquota (§4.4). -/
def selectPapers (subquotas : List (Str × Nat)) (pool : List CandidateItem) :
    List CandidateItem × List RunWarning :=
  match subquotas with
  | [] => ([], [])
  | (cat, q) :: rest =>
    let sel := selectForCategory pool cat q
    let warn : List RunWarning :=
      if (eligibleFor cat pool).length < q then [RunWarning.quota_shortfall cat] else []
    let acc := selectPapers rest pool
    (sel ++ acc.1, warn ++ acc.2)

/-- Modelled from the spec: news selection under the flat news quota (§4.4). -/
def selectNews (cfg : PipelineConfig) (pool : List CandidateItem) : List CandidateItem :=
  pool.take cfg.newsTotal

/-- Modelled from the spec: the window computed by the Window Gate (§4.1). -/
structure Window where
  wstart : Int
  wend : Int
deriving DecidableEq

/-- Modelled from the spec: the Window Gate pass rule (§4.1) — half-open
`[start, end)` on `publishedAt`; items without a timestamp pass only when
their source category is configured as not requiring one. -/
def windowPass (cfg : PipelineConfig) (w : Window) (it : CandidateItem) : Bool :=
  match it.publishedAt with
  | some t => decide (w.wstart ≤ t ∧ t < w.wend)
  | none => decide (it.sourceCategory ∈ cfg.noTimestampOkCategories)

/-- Modelled from the spec: the Window Gate applied to the ingested items. -/
def windowGate (cfg : PipelineConfig) (w : Window) (items : List CandidateItem) :
    List CandidateItem :=
  items.filter (windowPass cfg w)

/-- Modelled from the spec: the digest assembled from the selected papers and
news of one run (§4.5). -/
def digestItems (cfg : PipelineConfig) (aiOf : CandidateItem → ℚ) (w : Window)
    (items : List CandidateItem) : List CandidateItem :=
  (selectPapers cfg.paperSubquotas
      (l3CandidatePool cfg aiOf (windowGate cfg w items) .paper)).1
    ++ selectNews cfg (l3CandidatePool cfg aiOf (windowGate cfg w items) .news)

/-- Modelled from the spec: a history ledger entry (§3 HistoryEntry). -/
structure HistoryEntry where
  date : Nat
  paperCount : Nat
  newsCount : Nat
  topTitles : List Str
deriving DecidableEq

/-- Insert an entry into the date-ordered ledger, ascending by date. -/
def insertByDate (e : HistoryEntry) : List HistoryEntry → List HistoryEntry
  | [] => [e]
  | x :: xs => if e.date < x.date then e :: x :: xs else x :: insertByDate e xs

/-- Modelled from the spec: the ledger update at the end of a run — replace
any entry of the same date, keep date order, evict oldest beyond the cap
(§3, §4.5). -/
def updateLedger (cap : Nat) (e : HistoryEntry) (led : List HistoryEntry) :
    List HistoryEntry :=
  let merged := insertByDate e (led.filter fun x => decide (x.date ≠ e.date))
  merged.drop (merged.length - cap)

/-- Modelled from the spec: the ledger invariant (§3) — strictly increasing
dates (hence unique) and length at most the cap. -/
def ledgerInvariant (cap : Nat) (led : List HistoryEntry) : Prop :=
  led.Pairwise (fun a b => a.date < b.date) ∧ led.length ≤ cap

/-- Modelled from the spec: the error taxonomy entry relevant here (§7). -/
inductive PipelineError
  | configurationError
deriving DecidableEq

/-- Modelled from the spec: the window endpoints before validation (§4.1) —
rolling mode ends at now, calendar mode at the start of the current day. -/
def rawWindow (cfg : PipelineConfig) (nowMs dayStartMs : Int) : Window :=
  if cfg.calendarMode then
    ⟨dayStartMs - cfg.horizonDays * 86400000, dayStartMs⟩
  else
    ⟨nowMs - cfg.horizonDays * 86400000, nowMs⟩

/-- Modelled from the spec: window computation with fail-fast validation
(§4.1): horizon ≤ 0 or start ≥ end is a fatal configuration error. -/
def computeWindow (cfg : PipelineConfig) (nowMs dayStartMs : Int) :
    Except PipelineError Window :=
  if cfg.horizonDays ≤ 0 then .error .configurationError
  else if (rawWindow cfg nowMs dayStartMs).wend ≤ (rawWindow cfg nowMs dayStartMs).wstart then
    .error .configurationError
  else .ok (rawWindow cfg nowMs dayStartMs)

/-- Modelled from the spec: one remote scoring batch request (§4.3, §6). -/
structure RemoteCall where
  batch : List CandidateItem

/-- Modelled from the spec: the remote scoring calls issued for an L2 pool. -/
def scoringCalls (pool : List CandidateItem) : List RemoteCall :=
  if pool.isEmpty then [] else [⟨pool⟩]

/-- Modelled from the spec: one full run — window gate first; a configuration
error aborts the run before any remote call; otherwise the funnel runs and
the digest is produced (§4, §7). -/
def runPipeline (cfg : PipelineConfig) (aiOf : CandidateItem → ℚ)
    (nowMs dayStartMs : Int) (items : List CandidateItem) :
    Except PipelineError (List CandidateItem) × List RemoteCall :=
  match computeWindow cfg nowMs dayStartMs with
  | .error e => (.error e, [])
  | .ok w =>
    (.ok (digestItems cfg aiOf w items),
      scoringCalls (l2Pool cfg (windowGate cfg w items)))

/-! ## Concrete fixtures used by the witnesses -/

/-- A small concrete configuration exercising the model. -/
def sampleConfig : PipelineConfig where
  keywords := ["ai".toList, "machine learning".toList]
  noisePatterns := ["top 10".toList, "tutorial".toList]
  popularityThresholds := [("HackerNews".toList, (10 : ℚ))]
  normPop := fun _ v => v
  whitelistBonus := 2
  sourceWeights := [("OpenAI".toList, (2 : ℚ))]
  l2Limit := 30
  paperSubquotas := [("arxiv".toList, 9), ("huggingface".toList, 3)]
  newsTotal := 11
  ledgerCap := 30
  horizonDays := 1
  calendarMode := false
  noTimestampOkCategories := ["hf-daily".toList]

/-- `sampleConfig` with an invalid freshness horizon. -/
def zeroHorizonConfig : PipelineConfig :=
  { sampleConfig with horizonDays := 0 }

/-- A constant remote-scoring oracle. -/
def sampleAi : CandidateItem → ℚ := fun _ => 5

/-- A whitelisted item with a noise-pattern title and no popularity signal. -/
def sampleWhitelisted : CandidateItem where
  id := 1
  kind := .news
  title := "Top 10 tricks".toList
  summaryRaw := []
  sourceName := "OpenAI".toList
  sourceCategory := "RSS-whitelisted".toList
  publishedAt := some 0
  popularitySignal := none
  isWhitelisted := true

/-- An ordinary on-topic news item. -/
def sampleNews : CandidateItem where
  id := 2
  kind := .news
  title := "new ai model released".toList
  summaryRaw := []
  sourceName := "OpenAI".toList
  sourceCategory := "RSS-filtered".toList
  publishedAt := some 10
  popularitySignal := none
  isWhitelisted := false

/-- An item whose timestamp lies outside the sample window `[0, 100)`. -/
def sampleLate : CandidateItem where
  id := 3
  kind := .news
  title := "new ai model released".toList
  summaryRaw := []
  sourceName := "OpenAI".toList
  sourceCategory := "RSS-filtered".toList
  publishedAt := some 200
  popularitySignal := none
  isWhitelisted := false

/-- An arXiv paper candidate, used to populate a category below quota. -/
def mkPaper (n : Nat) : CandidateItem where
  id := n
  kind := .paper
  title := "ai paper".toList
  summaryRaw := []
  sourceName := "arXiv".toList
  sourceCategory := "arxiv".toList
  publishedAt := some (Int.ofNat n)
  popularitySignal := none
  isWhitelisted := false

/-- Six arXiv candidates: fewer than the sample subquota of nine. -/
def paperPool : List CandidateItem :=
  [mkPaper 1, mkPaper 2, mkPaper 3, mkPaper 4, mkPaper 5, mkPaper 6]

/-! ## Helper lemmas on character-list strings -/

lemma startsWith_cons_head {c : Char} {p l : Str} (h : startsWith (c :: p) l = true) :
    ∃ t, l = c :: t := by
  cases l with
  | nil => simp [startsWith, List.isPrefixOf] at h
  | cons d t =>
    simp only [startsWith, List.isPrefixOf, Bool.and_eq_true, beq_iff_eq] at h
    exact ⟨t, by rw [h.1]⟩

lemma not_startsWith_of_head_ne {c d : Char} (h : c ≠ d) (p t : Str) :
    startsWith (c :: p) (d :: t) = false := by
  simp [startsWith, List.isPrefixOf, beq_iff_eq, h]

lemma fallbackSafe {baseUrl : Str} (hb : startsWith "/".toList baseUrl = true) :
    startsWith "data:".toList (FALLBACK_IMAGE baseUrl) = false ∧
    startsWith "javascript:".toList (FALLBACK_IMAGE baseUrl) = false := by
  obtain ⟨t, ht⟩ := startsWith_cons_head (show startsWith ('/' :: []) baseUrl = true from hb)
  rw [FALLBACK_IMAGE, ht, List.cons_append]
  exact ⟨not_startsWith_of_head_ne (by decide) _ _, not_startsWith_of_head_ne (by decide) _ _⟩

lemma baseUrlAppendSafe {baseUrl : Str} (hb : startsWith "/".toList baseUrl = true) (rest : Str) :
    startsWith "data:".toList (baseUrl ++ rest) = false ∧
    startsWith "javascript:".toList (baseUrl ++ rest) = false := by
  obtain ⟨t, ht⟩ := startsWith_cons_head (show startsWith ('/' :: []) baseUrl = true from hb)
  rw [ht, List.cons_append]
  exact ⟨not_startsWith_of_head_ne (by decide) _ _, not_startsWith_of_head_ne (by decide) _ _⟩

lemma resolveVal_cases (baseUrl value : Str) :
    resolveVal baseUrl value = FALLBACK_IMAGE baseUrl
    ∨ ((startsWith "http://".toList value = true ∨ startsWith "https://".toList value = true)
        ∧ resolveVal baseUrl value = value)
    ∨ (startsWith "/".toList value = true
        ∧ resolveVal baseUrl value = baseUrl ++ value.dropWhile (· = '/')) := by
  unfold resolveVal
  split_ifs with h1 h2 h3 h4
  · exact Or.inl rfl
  · exact Or.inl rfl
  · exact Or.inr (Or.inl ⟨by simpa [Bool.or_eq_true] using h3, rfl⟩)
  · exact Or.inr (Or.inr ⟨h4, rfl⟩)
  · exact Or.inl rfl

lemma jsTrim_all_ws {s : Str} (h : s.all wsChar = true) : jsTrim s = [] := by
  have h1 : s.dropWhile wsChar = [] := by
    rw [List.dropWhile_eq_nil_iff]
    intro x hx
    exact (List.all_eq_true.mp h) x hx
  simp [jsTrim, h1]

/-- C8 counterexample: with the default base URL `/`, the input `" https://x"`
(leading whitespace) is returned trimmed, which is neither the fallback, nor
the input unchanged, nor a base-prefixed path; the claim as stated fails. -/
theorem resolveImageSrc_claim_counterexample :
    ¬ resolveImageSrcClaimAsStated "/".toList " https://x".toList := by
  intro h
  rcases h with h | ⟨_, h⟩ | ⟨hc, _⟩
  · exact absurd h (by decide)
  · exact absurd h (by decide)
  · exact absurd hc (by decide)

/-- C8 (amended): over the trimmed input, `resolveImageSrc` returns the
fallback placeholder, or the trimmed input when it starts with `http://` or
`https://`, or the base-prefixed path when the trimmed input starts with `/`;
when the base URL starts with `/` the result never begins with `data:` or
`javascript:`; a missing, empty or whitespace-only input yields the
fallback. -/
theorem resolveImageSrc_safe (baseUrl : Str) (rawUrl : Option Str)
    (hb : startsWith "/".toList baseUrl = true) :
    (resolveImageSrc baseUrl rawUrl = FALLBACK_IMAGE baseUrl
      ∨ ((startsWith "http://".toList (jsTrim (rawUrl.getD [])) = true
          ∨ startsWith "https://".toList (jsTrim (rawUrl.getD [])) = true)
         ∧ resolveImageSrc baseUrl rawUrl = jsTrim (rawUrl.getD []))
      ∨ (startsWith "/".toList (jsTrim (rawUrl.getD [])) = true
         ∧ resolveImageSrc baseUrl rawUrl
             = baseUrl ++ (jsTrim (rawUrl.getD [])).dropWhile (· = '/')))
    ∧ startsWith "data:".toList (resolveImageSrc baseUrl rawUrl) = false
    ∧ startsWith "javascript:".toList (resolveImageSrc baseUrl rawUrl) = false
    ∧ ((rawUrl.getD []).all wsChar = true →
        resolveImageSrc baseUrl rawUrl = FALLBACK_IMAGE baseUrl) := by
  have hcases := resolveVal_cases baseUrl (jsTrim (rawUrl.getD []))
  refine ⟨hcases, ?_, ?_, ?_⟩
  · rcases hcases with h | ⟨hh, h⟩ | ⟨hs, h⟩
    · rw [resolveImageSrc, h]; exact (fallbackSafe hb).1
    · rw [resolveImageSrc, h]
      rcases hh with hh | hh
      · obtain ⟨t, ht⟩ := startsWith_cons_head
          (show startsWith ('h' :: "ttp://".toList) (jsTrim (rawUrl.getD [])) = true from hh)
        rw [ht]; exact not_startsWith_of_head_ne (by decide) _ _
      · obtain ⟨t, ht⟩ := startsWith_cons_head
          (show startsWith ('h' :: "ttps://".toList) (jsTrim (rawUrl.getD [])) = true from hh)
        rw [ht]; exact not_startsWith_of_head_ne (by decide) _ _
    · rw [resolveImageSrc, h]; exact (baseUrlAppendSafe hb _).1
  · rcases hcases with h | ⟨hh, h⟩ | ⟨hs, h⟩
    · rw [resolveImageSrc, h]; exact (fallbackSafe hb).2
    · rw [resolveImageSrc, h]
      rcases hh with hh | hh
      · obtain ⟨t, ht⟩ := startsWith_cons_head
          (show startsWith ('h' :: "ttp://".toList) (jsTrim (rawUrl.getD [])) = true from hh)
        rw [ht]; exact not_startsWith_of_head_ne (by decide) _ _
      · obtain ⟨t, ht⟩ := startsWith_cons_head
          (show startsWith ('h' :: "ttps://".toList) (jsTrim (rawUrl.getD [])) = true from hh)
        rw [ht]; exact not_startsWith_of_head_ne (by decide) _ _
    · rw [resolveImageSrc, h]; exact (baseUrlAppendSafe hb _).2
  · intro hws
    rw [resolveImageSrc, jsTrim_all_ws hws]
    rfl

/-- C8 witness: with base URL `/`, a whitespace-only input resolves to the
fallback image, and the trichotomy holds. -/
theorem resolveImageSrc_safe_witness :
    (startsWith "/".toList "/".toList = true
      ∧ (" ".toList.all wsChar = true →
          resolveImageSrc "/".toList (some " ".toList) = FALLBACK_IMAGE "/".toList))
      ∧ resolveImageSrc "/".toList (some " ".toList) = FALLBACK_IMAGE "/".toList := by
  have h := resolveImageSrc_safe "/".toList (some " ".toList) (by decide)
  exact ⟨⟨by decide, h.2.2.2⟩, h.2.2.2 (by decide)⟩

/-! ## Theorems for `getPaperCategory` -/

/-- C9: `getPaperCategory` is total with range
`{General AI, Computer Vision, Robotics}`: it returns the trimmed
`paperCategory` when that value is in the allowed list, otherwise `Robotics`
when some tag equals `robotics` case-insensitively, otherwise `General AI`. -/
theorem getPaperCategory_total (p : Paper) :
    getPaperCategory p ∈ CATEGORY_ORDER
    ∧ (jsTrim (p.paperCategory.getD []) ∈ CATEGORY_ORDER →
        getPaperCategory p = jsTrim (p.paperCategory.getD []))
    ∧ (jsTrim (p.paperCategory.getD []) ∉ CATEGORY_ORDER →
        ("robotics".toList ∈ (p.tags.getD []).map (fun tag => tag.map Char.toLower) →
            getPaperCategory p = "Robotics".toList)
        ∧ ("robotics".toList ∉ (p.tags.getD []).map (fun tag => tag.map Char.toLower) →
            getPaperCategory p = "General AI".toList)) := by
  by_cases hmem : jsTrim (p.paperCategory.getD []) ∈ CATEGORY_ORDER
  · have hne : jsTrim (p.paperCategory.getD []) ≠ [] := by
      have h3 : jsTrim (p.paperCategory.getD []) = "General AI".toList
          ∨ jsTrim (p.paperCategory.getD []) = "Computer Vision".toList
          ∨ jsTrim (p.paperCategory.getD []) = "Robotics".toList := by
        simpa [CATEGORY_ORDER] using hmem
      rcases h3 with h | h | h <;> (rw [h]; decide)
    have hres : getPaperCategory p = jsTrim (p.paperCategory.getD []) := by
      rw [getPaperCategory, if_pos ⟨hne, hmem⟩]
    refine ⟨hres ▸ hmem, fun _ => hres, fun hnot => absurd hmem hnot⟩
  · have hres : getPaperCategory p =
        (if "robotics".toList ∈ (p.tags.getD []).map (fun tag => tag.map Char.toLower)
          then "Robotics".toList else "General AI".toList) := by
      rw [getPaperCategory, if_neg (by intro h; exact hmem h.2)]
    by_cases htag : "robotics".toList ∈ (p.tags.getD []).map (fun tag => tag.map Char.toLower)
    · rw [hres, if_pos htag]
      exact ⟨by decide, fun h => absurd h hmem, fun _ => ⟨fun _ => rfl, fun h => absurd htag h⟩⟩
    · rw [hres, if_neg htag]
      exact ⟨by decide, fun h => absurd h hmem, fun _ => ⟨fun h => absurd h htag, fun _ => rfl⟩⟩

/-- C9 witness: a paper with tag `Robotics` (capitalised) and an unknown
`paperCategory` is classified `Robotics`. -/
theorem getPaperCategory_total_witness :
    getPaperCategory ⟨"T".toList, some "quantum".toList, some ["Robotics".toList]⟩
        = "Robotics".toList
      ∧ getPaperCategory ⟨"T".toList, some "quantum".toList, some ["Robotics".toList]⟩
        ∈ CATEGORY_ORDER := by
  have h := getPaperCategory_total ⟨"T".toList, some "quantum".toList, some ["Robotics".toList]⟩
  exact ⟨((h.2.2 (by decide)).1 (by decide)), h.1⟩

/-! ## Theorems for `getTimeAgo` -/

lemma fdiv_lt_one_iff {a : Int} : Int.fdiv a 3600000 < 1 ↔ a < 3600000 := by
  rw [Int.fdiv_eq_ediv a (by decide), Int.ediv_lt_iff_lt_mul (by decide)]
  omega

lemma le_fdiv_iff_h {a c : Int} : c ≤ Int.fdiv a 3600000 ↔ c * 3600000 ≤ a := by
  rw [Int.fdiv_eq_ediv a (by decide)]
  exact Int.le_ediv_iff_mul_le (by decide)

lemma fdiv_lt_iff_h {a c : Int} : Int.fdiv a 3600000 < c ↔ a < c * 3600000 := by
  rw [Int.fdiv_eq_ediv a (by decide)]
  exact Int.ediv_lt_iff_lt_mul (by decide)

lemma le_fdiv_iff_d {a c : Int} : c ≤ Int.fdiv a 86400000 ↔ c * 86400000 ≤ a := by
  rw [Int.fdiv_eq_ediv a (by decide)]
  exact Int.le_ediv_iff_mul_le (by decide)

lemma fdiv_lt_iff_d {a c : Int} : Int.fdiv a 86400000 < c ↔ a < c * 86400000 := by
  rw [Int.fdiv_eq_ediv a (by decide)]
  exact Int.ediv_lt_iff_lt_mul (by decide)

lemma le_fdiv_iff_24 {a c : Int} : c ≤ Int.fdiv a 24 ↔ c * 24 ≤ a := by
  rw [Int.fdiv_eq_ediv a (by decide)]
  exact Int.le_ediv_iff_mul_le (by decide)

lemma fdiv_lt_iff_24 {a c : Int} : Int.fdiv a 24 < c ↔ a < c * 24 := by
  rw [Int.fdiv_eq_ediv a (by decide)]
  exact Int.ediv_lt_iff_lt_mul (by decide)

/-- C10: `getTimeAgo` is total on missing data — a missing or unparseable
`publishedAt` yields the today label; a valid timestamp yields just-now under
one hour of age, an hours label under 24 hours, the yesterday label when the
age in whole days is exactly one, and a days label otherwise. -/
theorem getTimeAgo_total (parse : String → Option Int) (nowMs : Int) (labels : TimeLabels) :
    getTimeAgo parse nowMs none labels = labels.today
    ∧ (∀ s, parse s = none → getTimeAgo parse nowMs (some s) labels = labels.today)
    ∧ (∀ s t, s ≠ "" → parse s = some t →
        (nowMs - t < 3600000 →
          getTimeAgo parse nowMs (some s) labels = labels.justNow)
        ∧ (3600000 ≤ nowMs - t → nowMs - t < 24 * 3600000 →
          getTimeAgo parse nowMs (some s) labels
            = toString (Int.fdiv (nowMs - t) 3600000) ++ labels.hoursAgo)
        ∧ (Int.fdiv (nowMs - t) 86400000 = 1 →
          getTimeAgo parse nowMs (some s) labels = labels.yesterday)
        ∧ (24 * 3600000 ≤ nowMs - t → Int.fdiv (nowMs - t) 86400000 ≠ 1 →
          getTimeAgo parse nowMs (some s) labels
            = toString (Int.fdiv (Int.fdiv (nowMs - t) 3600000) 24) ++ labels.daysAgo)) := by
  refine ⟨rfl, ?_, ?_⟩
  · intro s hp
    by_cases hs : s = ""
    · simp [getTimeAgo, hs]
    · simp [getTimeAgo, hs, hp]
  · intro s t hs hp
    have hbody : getTimeAgo parse nowMs (some s) labels = timeAgoOfMs (nowMs - t) labels := by
      simp [getTimeAgo, hs, hp]
    refine ⟨?_, ?_, ?_, ?_⟩
    · intro h
      rw [hbody, timeAgoOfMs, if_pos (fdiv_lt_one_iff.mpr h)]
    · intro h1 h24
      have hge : ¬ Int.fdiv (nowMs - t) 3600000 < 1 := by
        rw [fdiv_lt_one_iff]; omega
      have hlt : Int.fdiv (nowMs - t) 3600000 < 24 := fdiv_lt_iff_h.mpr (by omega)
      rw [hbody, timeAgoOfMs, if_neg hge, if_pos hlt]
    · intro hd
      have hlo : 86400000 ≤ nowMs - t := by
        have := le_fdiv_iff_d.mp (le_of_eq hd.symm)
        omega
      have hhi : nowMs - t < 2 * 86400000 := by
        have := fdiv_lt_iff_d.mp (by omega : Int.fdiv (nowMs - t) 86400000 < 2)
        omega
      have h24 : 24 ≤ Int.fdiv (nowMs - t) 3600000 := le_fdiv_iff_h.mpr (by omega)
      have h48 : Int.fdiv (nowMs - t) 3600000 < 48 := fdiv_lt_iff_h.mpr (by omega)
      have hdd : Int.fdiv (Int.fdiv (nowMs - t) 3600000) 24 = 1 := by
        have hge1 : 1 ≤ Int.fdiv (Int.fdiv (nowMs - t) 3600000) 24 :=
          le_fdiv_iff_24.mpr (by omega)
        have hlt2 : Int.fdiv (Int.fdiv (nowMs - t) 3600000) 24 < 2 :=
          fdiv_lt_iff_24.mpr (by omega)
        omega
      rw [hbody, timeAgoOfMs, if_neg (by rw [fdiv_lt_one_iff]; omega),
        if_neg (by rw [fdiv_lt_iff_h]; omega), if_pos hdd]
    · intro h24 hne
      have hge1 : 1 ≤ Int.fdiv (nowMs - t) 86400000 := le_fdiv_iff_d.mpr (by omega)
      have hge2 : 2 ≤ Int.fdiv (nowMs - t) 86400000 := by omega
      have hlo : 2 * 86400000 ≤ nowMs - t := le_fdiv_iff_d.mp hge2
      have h48 : 48 ≤ Int.fdiv (nowMs - t) 3600000 := le_fdiv_iff_h.mpr (by omega)
      have hdd : ¬ Int.fdiv (Int.fdiv (nowMs - t) 3600000) 24 = 1 := by
        have : 2 ≤ Int.fdiv (Int.fdiv (nowMs - t) 3600000) 24 :=
          le_fdiv_iff_24.mpr (by omega)
        omega
      rw [hbody, timeAgoOfMs, if_neg (by rw [fdiv_lt_one_iff]; omega),
        if_neg (by rw [fdiv_lt_iff_h]; omega), if_neg hdd]

/-- C10 witness: with a parser mapping the string to epoch 0 and now exactly
one day later, `getTimeAgo` yields the yesterday label. -/
theorem getTimeAgo_total_witness :
    (("x" : String) ≠ "" ∧ Int.fdiv ((86400000 : Int) - 0) 86400000 = 1)
      ∧ getTimeAgo (fun _ => some 0) 86400000 (some "x")
          ⟨"today", "just now", "yesterday", "h ago", "d ago"⟩ = "yesterday" := by
  refine ⟨⟨by decide, by decide⟩, ?_⟩
  exact ((getTimeAgo_total (fun _ => some 0) 86400000
    ⟨"today", "just now", "yesterday", "h ago", "d ago"⟩).2.2 "x" 0
    (by decide) rfl).2.2.1 (by decide)

/-! ## Theorems for the composite scorer (L2) -/

/-- C1: every item produced by the L2 composite scorer has
`compositeScore = aiScore*0.6 + normalizedPopularity*0.4 + whitelistBonus + sourceWeight`,
where the whitelist bonus applies only to whitelisted items and the source
weight is the configured per-source entry, defaulting to 0 for sources not in
the table. -/
theorem compositeScore_formula (cfg : PipelineConfig) (aiOf : CandidateItem → ℚ)
    (items : List CandidateItem) (s : ScoredItem) (hs : s ∈ scoreL2 cfg aiOf items) :
    s.compositeScore
      = s.aiScore * (6 / 10) + normalizedPopularity cfg s.item * (4 / 10)
        + (if s.item.isWhitelisted then cfg.whitelistBonus else 0)
        + ((cfg.sourceWeights.lookup s.item.sourceName).getD 0) := by
  obtain ⟨it, _, rfl⟩ := List.mem_map.mp hs
  rfl

/-- C1 witness: the formula holds at a concrete configuration and item. -/
theorem compositeScore_formula_witness :
    scoreItem sampleConfig sampleAi sampleNews ∈ scoreL2 sampleConfig sampleAi [sampleNews]
    ∧ (scoreItem sampleConfig sampleAi sampleNews).compositeScore
      = (scoreItem sampleConfig sampleAi sampleNews).aiScore * (6 / 10)
        + normalizedPopularity sampleConfig
            (scoreItem sampleConfig sampleAi sampleNews).item * (4 / 10)
        + (if (scoreItem sampleConfig sampleAi sampleNews).item.isWhitelisted
            then sampleConfig.whitelistBonus else 0)
        + ((sampleConfig.sourceWeights.lookup
            (scoreItem sampleConfig sampleAi sampleNews).item.sourceName).getD 0) := by
  have hmem : scoreItem sampleConfig sampleAi sampleNews
      ∈ scoreL2 sampleConfig sampleAi [sampleNews] := List.mem_singleton.mpr rfl
  exact ⟨hmem, compositeScore_formula sampleConfig sampleAi [sampleNews] _ hmem⟩

/-! ## Theorems for the whitelist bypass (L1 → L3) -/

/-- C2: a whitelisted candidate is marked `bypassL1`/`bypassL2`, short-circuits
the keyword, noise and popularity rules, and is present in the L3 candidate
pool of its kind — whatever its title, summary and popularity signal. -/
theorem whitelist_bypass (cfg : PipelineConfig) (aiOf : CandidateItem → ℚ)
    (items : List CandidateItem) (it : CandidateItem)
    (hmem : it ∈ items) (hwl : it.isWhitelisted = true) :
    l1Verdict cfg it = .whitelisted
    ∧ (l1Mark it).bypassL1 = true
    ∧ (l1Mark it).bypassL2 = true
    ∧ it ∈ l3CandidatePool cfg aiOf items it.kind := by
  have hv : l1Verdict cfg it = .whitelisted := by
    rw [l1Verdict, if_pos hwl]
  refine ⟨hv, hwl, hwl, ?_⟩
  refine List.mem_append_left _ ?_
  rw [List.mem_filter]
  refine ⟨?_, by simp⟩
  rw [whitelistedPool, List.mem_filter]
  exact ⟨hmem, by rw [hv]; simp⟩

/-- C2 witness: a whitelisted item with the noise-pattern title
`Top 10 tricks`, failing the keyword gate, with no popularity signal, still
reaches the L3 candidate pool. -/
theorem whitelist_bypass_witness :
    (sampleWhitelisted ∈ [sampleWhitelisted, sampleNews]
      ∧ sampleWhitelisted.isWhitelisted = true
      ∧ noiseHit sampleConfig sampleWhitelisted = true
      ∧ keywordHit sampleConfig sampleWhitelisted = false
      ∧ sampleWhitelisted.popularitySignal = none)
    ∧ sampleWhitelisted
        ∈ l3CandidatePool sampleConfig sampleAi [sampleWhitelisted, sampleNews]
            sampleWhitelisted.kind := by
  refine ⟨⟨List.mem_cons_self _ _, rfl, by decide, by decide, rfl⟩, ?_⟩
  exact (whitelist_bypass sampleConfig sampleAi [sampleWhitelisted, sampleNews]
    sampleWhitelisted (List.mem_cons_self _ _) rfl).2.2.2

/-! ## Theorems for the L2 ranking -/

/-- C3: the per-kind L2 ranking is sorted by the specified order — descending
composite score, ties by more recent publication, remaining ties by stable
input position — it is a permutation of the kind-filtered scored input, the
order is total and transitive, mutual comparability forces equal input
positions, and re-running the ranking on the same input yields the identical
ordering. -/
theorem ranking_deterministic (k : Kind) (l : List ScoredItem) :
    (rankKind k l).Sorted rankLE
    ∧ List.Perm (rankKind k l) (indexItems (kindFilter k l))
    ∧ (∀ a b : RankedItem, rankLE a b ∨ rankLE b a)
    ∧ (∀ a b c : RankedItem, rankLE a b → rankLE b c → rankLE a c)
    ∧ (∀ a b : RankedItem, rankLE a b → rankLE b a → a.idx = b.idx)
    ∧ rankKind k l = rankKind k l := by
  refine ⟨List.sorted_insertionSort rankLE _, List.perm_insertionSort rankLE _,
    fun a b => IsTotal.total a b, fun a b c => IsTrans.trans a b c, ?_, rfl⟩
  intro a b hab hba
  rcases hab with h1 | ⟨e1, h1⟩
  · rcases hba with h2 | ⟨e2, h2⟩
    · exact absurd (lt_trans h1 h2) (lt_irrefl _)
    · exact absurd h1 (e2 ▸ lt_irrefl _)
  · rcases hba with h2 | ⟨e2, h2⟩
    · exact absurd h2 (e1 ▸ lt_irrefl _)
    · rcases h1 with p1 | ⟨q1, i1⟩
      · rcases h2 with p2 | ⟨q2, i2⟩
        · exact absurd (lt_trans p1 p2) (lt_irrefl _)
        · exact absurd p1 (q2 ▸ lt_irrefl _)
      · rcases h2 with p2 | ⟨q2, i2⟩
        · exact absurd p2 (q1 ▸ lt_irrefl _)
        · exact Nat.le_antisymm i1 i2

/-- C3 witness: the ranking properties at a concrete singleton input. -/
theorem ranking_deterministic_witness :
    (rankKind .news [scoreItem sampleConfig sampleAi sampleNews]).Sorted rankLE
    ∧ rankKind .news [scoreItem sampleConfig sampleAi sampleNews]
        = rankKind .news [scoreItem sampleConfig sampleAi sampleNews] :=
  ⟨(ranking_deterministic .news [scoreItem sampleConfig sampleAi sampleNews]).1,
    (ranking_deterministic .news [scoreItem sampleConfig sampleAi sampleNews]).2.2.2.2.2⟩

/-! ## Theorems for L3 Selecting and quotas -/

lemma mem_selectForCategory_cat {pool : List CandidateItem} {cat : Str} {q : Nat}
    {it : CandidateItem} (h : it ∈ selectForCategory pool cat q) :
    it.sourceCategory = cat := by
  have h1 : it ∈ eligibleFor cat pool := List.take_subset _ _ h
  have h2 := (List.mem_filter.mp h1).2
  simpa using h2

lemma mem_selectForCategory_pool {pool : List CandidateItem} {cat : Str} {q : Nat}
    {it : CandidateItem} (h : it ∈ selectForCategory pool cat q) :
    it ∈ pool :=
  (List.mem_filter.mp (List.take_subset _ _ h)).1

lemma mem_selectPapers_cats {subquotas : List (Str × Nat)} {pool : List CandidateItem}
    {it : CandidateItem} (h : it ∈ (selectPapers subquotas pool).1) :
    ∃ cq ∈ subquotas, it.sourceCategory = cq.1 := by
  induction subquotas with
  | nil => simp [selectPapers] at h
  | cons cq rest ih =>
    obtain ⟨cat, q⟩ := cq
    simp only [selectPapers] at h
    rcases List.mem_append.mp h with h | h
    · exact ⟨(cat, q), List.mem_cons_self _ _, mem_selectForCategory_cat h⟩
    · obtain ⟨cq2, hmem, hcat⟩ := ih h
      exact ⟨cq2, List.mem_cons_of_mem _ hmem, hcat⟩

lemma mem_selectPapers_pool {subquotas : List (Str × Nat)} {pool : List CandidateItem}
    {it : CandidateItem} (h : it ∈ (selectPapers subquotas pool).1) :
    it ∈ pool := by
  induction subquotas with
  | nil => simp [selectPapers] at h
  | cons cq rest ih =>
    obtain ⟨cat, q⟩ := cq
    simp only [selectPapers] at h
    rcases List.mem_append.mp h with h | h
    · exact mem_selectForCategory_pool h
    · exact ih h

lemma shortfall_warning {subquotas : List (Str × Nat)} {pool : List CandidateItem}
    {cat : Str} {q : Nat}
    (hmem : (cat, q) ∈ subquotas) (hshort : (eligibleFor cat pool).length < q) :
    RunWarning.quota_shortfall cat ∈ (selectPapers subquotas pool).2 := by
  induction subquotas with
  | nil => cases hmem
  | cons cq rest ih =>
    obtain ⟨c0, q0⟩ := cq
    simp only [selectPapers]
    rcases List.mem_cons.mp hmem with heq | hmem2
    · rw [Prod.mk.injEq] at heq
      obtain ⟨rfl, rfl⟩ := heq
      rw [if_pos hshort]
      exact List.mem_append_left _ (List.mem_cons_self _ _)
    · exact List.mem_append_right _ (ih hmem2)

lemma selectPapers_per_category (subquotas : List (Str × Nat)) (pool : List CandidateItem)
    (hdist : subquotas.Pairwise (fun a b => a.1 ≠ b.1)) :
    ∀ c2 q2, (c2, q2) ∈ subquotas →
      ((selectPapers subquotas pool).1.filter fun it =>
          decide (it.sourceCategory = c2)).length
        = min q2 (eligibleFor c2 pool).length := by
  induction subquotas with
  | nil =>
    intro c2 q2 h
    cases h
  | cons cq rest ih =>
    obtain ⟨c0, q0⟩ := cq
    intro c2 q2 hmem
    have hd0 : ∀ b ∈ rest, c0 ≠ b.1 := fun b hb => (List.pairwise_cons.mp hdist).1 b hb
    have hdrest : rest.Pairwise (fun a b => a.1 ≠ b.1) := (List.pairwise_cons.mp hdist).2
    simp only [selectPapers, List.filter_append, List.length_append]
    rcases List.mem_cons.mp hmem with heq | hmem2
    · rw [Prod.mk.injEq] at heq
      obtain ⟨rfl, rfl⟩ := heq
      have hsel : (selectForCategory pool c2 q2).filter
            (fun it => decide (it.sourceCategory = c2))
          = selectForCategory pool c2 q2 :=
        List.filter_eq_self.mpr fun a ha => by simp [mem_selectForCategory_cat ha]
      have hrest : ((selectPapers rest pool).1.filter fun it =>
          decide (it.sourceCategory = c2)) = [] := by
        rw [List.filter_eq_nil_iff]
        intro a ha
        obtain ⟨cq2, hcq2, hcat⟩ := mem_selectPapers_cats ha
        have hne := hd0 cq2 hcq2
        simp [hcat]
        exact fun habs => hne habs.symm
      rw [hsel, hrest]
      simp [selectForCategory, List.length_take]
    · have hne : c0 ≠ c2 := by simpa using hd0 (c2, q2) hmem2
      have hsel0 : (selectForCategory pool c0 q0).filter
          (fun it => decide (it.sourceCategory = c2)) = [] := by
        rw [List.filter_eq_nil_iff]
        intro a ha
        have hac := mem_selectForCategory_cat ha
        simp [hac]
        exact hne
      rw [hsel0]
      simpa using ih hdrest c2 q2 hmem2

/-- C4: when a paper category has fewer eligible candidates than its subquota,
exactly all of its eligible candidates are selected, a non-fatal
quota-shortfall warning is recorded, and the shortfall is not redistributed —
every category's share of the selection is still the minimum of its own
subquota and its own eligible candidates. -/
theorem quota_shortfall_underfill (subquotas : List (Str × Nat)) (pool : List CandidateItem)
    (cat : Str) (q : Nat)
    (hdist : subquotas.Pairwise (fun a b => a.1 ≠ b.1))
    (hmem : (cat, q) ∈ subquotas)
    (hshort : (eligibleFor cat pool).length < q) :
    selectForCategory pool cat q = eligibleFor cat pool
    ∧ RunWarning.quota_shortfall cat ∈ (selectPapers subquotas pool).2
    ∧ ∀ c2 q2, (c2, q2) ∈ subquotas →
        ((selectPapers subquotas pool).1.filter fun it =>
            decide (it.sourceCategory = c2)).length
          = min q2 (eligibleFor c2 pool).length := by
  refine ⟨?_, shortfall_warning hmem hshort, selectPapers_per_category subquotas pool hdist⟩
  exact List.take_of_length_le (le_of_lt hshort)

/-- C4 witness: the subquota of 9 for category `arxiv` with only 6 eligible
candidates yields exactly those 6 selected, a shortfall warning, and no
borrowing into the other category. -/
theorem quota_shortfall_underfill_witness :
    ((("arxiv".toList, 9) ∈ sampleConfig.paperSubquotas
        ∧ sampleConfig.paperSubquotas.Pairwise (fun a b => a.1 ≠ b.1)
        ∧ (eligibleFor "arxiv".toList paperPool).length < 9
        ∧ (eligibleFor "arxiv".toList paperPool).length = 6)
      ∧ selectForCategory paperPool "arxiv".toList 9 = eligibleFor "arxiv".toList paperPool
      ∧ RunWarning.quota_shortfall "arxiv".toList
          ∈ (selectPapers sampleConfig.paperSubquotas paperPool).2)
    ∧ ((selectPapers sampleConfig.paperSubquotas paperPool).1.filter fun it =>
        decide (it.sourceCategory = "arxiv".toList)).length = 6 := by
  have h := quota_shortfall_underfill sampleConfig.paperSubquotas paperPool
    "arxiv".toList 9 (by decide) (by decide) (by decide)
  refine ⟨⟨⟨by decide, by decide, by decide, by decide⟩, h.1, h.2.1⟩, ?_⟩
  exact (h.2.2 "arxiv".toList 9 (by decide)).trans (by decide)

/-! ## Theorems for the window gate exclusion -/

lemma windowPass_out {cfg : PipelineConfig} {w : Window} {it : CandidateItem} {t : Int}
    (hts : it.publishedAt = some t) (hout : t < w.wstart ∨ w.wend ≤ t) :
    windowPass cfg w it = false := by
  rw [windowPass, hts]
  simp only [decide_eq_false_iff_not]
  rintro ⟨h1, h2⟩
  rcases hout with h | h <;> omega

lemma mem_indexItemsFrom {r : RankedItem} {n : Nat} {l : List ScoredItem}
    (h : r ∈ indexItemsFrom n l) : r.s ∈ l := by
  induction l generalizing n with
  | nil => cases h
  | cons s rest ih =>
    rw [indexItemsFrom] at h
    rcases List.mem_cons.mp h with h | h
    · rw [h]
      exact List.mem_cons_self _ _
    · exact List.mem_cons_of_mem _ (ih h)

lemma mem_rankKind {r : RankedItem} {k : Kind} {l : List ScoredItem}
    (h : r ∈ rankKind k l) : r.s ∈ l := by
  have h1 : r ∈ indexItems (kindFilter k l) :=
    (List.perm_insertionSort rankLE _).subset h
  exact (List.mem_filter.mp (mem_indexItemsFrom h1)).1

lemma mem_l3CandidatePool {cfg : PipelineConfig} {aiOf : CandidateItem → ℚ}
    {xs : List CandidateItem} {k : Kind} {it : CandidateItem}
    (h : it ∈ l3CandidatePool cfg aiOf xs k) : it ∈ xs := by
  rcases List.mem_append.mp h with h | h
  · exact (List.mem_filter.mp (List.mem_filter.mp h).1).1
  · obtain ⟨r, hr, hit⟩ := List.mem_map.mp h
    have hr2 : r ∈ rankKind k (scoreL2 cfg aiOf (l2Pool cfg xs)) := List.take_subset _ _ hr
    obtain ⟨it0, hit0, heq⟩ := List.mem_map.mp (mem_rankKind hr2)
    have hsame : r.s.item = it0 := by rw [← heq]; exact rfl
    rw [← hit, hsame]
    exact (List.mem_filter.mp hit0).1

/-- C5: an item whose `publishedAt` lies outside the half-open window
`[start, end)` is absent from the gate output, from all L1 pools, from the
scored L2 output, from the L3 candidate pools of both kinds, from the L3
selections, and from the assembled digest. -/
theorem window_excludes_all_stages (cfg : PipelineConfig) (aiOf : CandidateItem → ℚ)
    (w : Window) (items : List CandidateItem) (it : CandidateItem) (t : Int)
    (hts : it.publishedAt = some t) (hout : t < w.wstart ∨ w.wend ≤ t) :
    it ∉ windowGate cfg w items
    ∧ it ∉ whitelistedPool cfg (windowGate cfg w items)
    ∧ it ∉ l2Pool cfg (windowGate cfg w items)
    ∧ it ∉ rejectedPool cfg (windowGate cfg w items)
    ∧ (∀ s ∈ scoreL2 cfg aiOf (l2Pool cfg (windowGate cfg w items)), s.item ≠ it)
    ∧ (∀ k, it ∉ l3CandidatePool cfg aiOf (windowGate cfg w items) k)
    ∧ it ∉ (selectPapers cfg.paperSubquotas
        (l3CandidatePool cfg aiOf (windowGate cfg w items) .paper)).1
    ∧ it ∉ selectNews cfg (l3CandidatePool cfg aiOf (windowGate cfg w items) .news)
    ∧ it ∉ digestItems cfg aiOf w items := by
  have hg : it ∉ windowGate cfg w items := by
    intro hm
    have h2 := (List.mem_filter.mp hm).2
    rw [windowPass_out hts hout] at h2
    cases h2
  have hwp : it ∉ whitelistedPool cfg (windowGate cfg w items) :=
    fun hm => hg (List.mem_filter.mp hm).1
  have hl2 : it ∉ l2Pool cfg (windowGate cfg w items) :=
    fun hm => hg (List.mem_filter.mp hm).1
  have hrj : it ∉ rejectedPool cfg (windowGate cfg w items) :=
    fun hm => hg (List.mem_filter.mp hm).1
  have hsc : ∀ s ∈ scoreL2 cfg aiOf (l2Pool cfg (windowGate cfg w items)),
      s.item ≠ it := by
    intro s hs heq
    obtain ⟨it0, hit0, hseq⟩ := List.mem_map.mp hs
    have hsame : s.item = it0 := by rw [← hseq]; exact rfl
    exact hl2 (heq ▸ hsame ▸ hit0)
  have hpool : ∀ k, it ∉ l3CandidatePool cfg aiOf (windowGate cfg w items) k :=
    fun k hm => hg (mem_l3CandidatePool hm)
  have hsel : it ∉ (selectPapers cfg.paperSubquotas
      (l3CandidatePool cfg aiOf (windowGate cfg w items) .paper)).1 :=
    fun hm => hpool .paper (mem_selectPapers_pool hm)
  have hnews : it ∉ selectNews cfg
      (l3CandidatePool cfg aiOf (windowGate cfg w items) .news) :=
    fun hm => hpool .news (List.take_subset _ _ hm)
  refine ⟨hg, hwp, hl2, hrj, hsc, hpool, hsel, hnews, ?_⟩
  intro hm
  rcases List.mem_append.mp hm with hm | hm
  · exact hsel hm
  · exact hnews hm

/-- C5 witness: an item published at 200 and the window `[0, 100)`. -/
theorem window_excludes_all_stages_witness :
    (sampleLate.publishedAt = some 200 ∧ ((200 : Int) < (0 : Int) ∨ (100 : Int) ≤ 200))
    ∧ sampleLate ∉ windowGate sampleConfig ⟨0, 100⟩ [sampleLate]
    ∧ sampleLate ∉ digestItems sampleConfig sampleAi ⟨0, 100⟩ [sampleLate] := by
  have h := window_excludes_all_stages sampleConfig sampleAi ⟨0, 100⟩ [sampleLate]
    sampleLate 200 rfl (by decide)
  exact ⟨⟨rfl, by decide⟩, h.1, h.2.2.2.2.2.2.2.2⟩

/-! ## Theorems for the history ledger -/

lemma mem_insertByDate {e x : HistoryEntry} {l : List HistoryEntry} :
    x ∈ insertByDate e l ↔ x = e ∨ x ∈ l := by
  induction l with
  | nil => simp [insertByDate]
  | cons y ys ih =>
    rw [insertByDate]
    split_ifs with h
    · simp [List.mem_cons]
    · simp only [List.mem_cons, ih]
      tauto

lemma insertByDate_pairwise {e : HistoryEntry} {l : List HistoryEntry}
    (hl : l.Pairwise (fun a b => a.date < b.date))
    (hne : ∀ x ∈ l, x.date ≠ e.date) :
    (insertByDate e l).Pairwise (fun a b => a.date < b.date) := by
  induction l with
  | nil => simp [insertByDate]
  | cons y ys ih =>
    rw [insertByDate]
    obtain ⟨hy, hys⟩ := List.pairwise_cons.mp hl
    split_ifs with h
    · refine List.pairwise_cons.mpr ⟨?_, hl⟩
      intro b hb
      rcases List.mem_cons.mp hb with rfl | hb2
      · exact h
      · exact lt_trans h (hy b hb2)
    · have hylt : y.date < e.date := by
        have := hne y (List.mem_cons_self _ _)
        omega
      refine List.pairwise_cons.mpr
        ⟨?_, ih hys fun x hx => hne x (List.mem_cons_of_mem _ hx)⟩
      intro b hb
      rcases mem_insertByDate.mp hb with rfl | hb2
      · exact hylt
      · exact hy b hb2

lemma updateLedger_pairwise {cap : Nat} {e : HistoryEntry} {led : List HistoryEntry}
    (h : led.Pairwise (fun a b => a.date < b.date)) :
    (updateLedger cap e led).Pairwise (fun a b => a.date < b.date) := by
  have h1 : (led.filter fun x => decide (x.date ≠ e.date)).Pairwise
      (fun a b => a.date < b.date) := h.filter _
  have h2 := insertByDate_pairwise h1 fun x hx => by
    have := (List.mem_filter.mp hx).2
    simpa using this
  exact List.Pairwise.sublist (List.drop_sublist _ _) h2

lemma updateLedger_length {cap : Nat} {e : HistoryEntry} {led : List HistoryEntry} :
    (updateLedger cap e led).length ≤ cap := by
  simp only [updateLedger, List.length_drop]
  omega

lemma updateLedger_replaces {cap : Nat} {e : HistoryEntry} {led : List HistoryEntry} :
    ∀ x ∈ updateLedger cap e led, x.date = e.date → x = e := by
  intro x hx hdate
  have hx2 : x ∈ insertByDate e (led.filter fun y => decide (y.date ≠ e.date)) :=
    List.drop_subset _ _ hx
  rcases mem_insertByDate.mp hx2 with h | h
  · exact h
  · have hne := (List.mem_filter.mp h).2
    simp at hne
    exact absurd hdate hne

/-- C6: the ledger update preserves the invariant — strictly increasing, hence
unique, dates and length at most the cap; any entry carrying the date of the
new run is the new entry itself (replacement, never a duplicate); and the
invariant holds after any sequence of runs. -/
theorem ledger_invariant_preserved (cap : Nat) (e : HistoryEntry) (led : List HistoryEntry)
    (hinv : ledgerInvariant cap led) :
    ledgerInvariant cap (updateLedger cap e led)
    ∧ (∀ x ∈ updateLedger cap e led, x.date = e.date → x = e)
    ∧ (updateLedger cap e led).Pairwise (fun a b => a.date ≠ b.date)
    ∧ ∀ runs : List HistoryEntry,
        ledgerInvariant cap (runs.foldl (fun l r => updateLedger cap r l) led) := by
  have hstep : ∀ (e2 : HistoryEntry) (led2 : List HistoryEntry),
      ledgerInvariant cap led2 → ledgerInvariant cap (updateLedger cap e2 led2) :=
    fun e2 led2 h2 => ⟨updateLedger_pairwise h2.1, updateLedger_length⟩
  have hfold : ∀ (runs : List HistoryEntry) (led2 : List HistoryEntry),
      ledgerInvariant cap led2 →
      ledgerInvariant cap (runs.foldl (fun l r => updateLedger cap r l) led2) := by
    intro runs
    induction runs with
    | nil => exact fun led2 h2 => h2
    | cons r rs ih => exact fun led2 h2 => ih _ (hstep r led2 h2)
  refine ⟨hstep e led hinv, updateLedger_replaces, ?_, fun runs => hfold runs led hinv⟩
  exact ((hstep e led hinv).1).imp fun h => Nat.ne_of_lt h

/-- C6 witness: re-running date 2 on a ledger holding dates 1 and 2 keeps the
invariant and replaces the old entry for date 2. -/
theorem ledger_invariant_preserved_witness :
    ledgerInvariant 3 [⟨1, 1, 1, []⟩, ⟨2, 1, 1, []⟩]
    ∧ ledgerInvariant 3 (updateLedger 3 ⟨2, 5, 5, []⟩ [⟨1, 1, 1, []⟩, ⟨2, 1, 1, []⟩])
    ∧ (∀ x ∈ updateLedger 3 ⟨2, 5, 5, []⟩ [⟨1, 1, 1, []⟩, ⟨2, 1, 1, []⟩],
        x.date = 2 → x = ⟨2, 5, 5, []⟩) := by
  have hinv : ledgerInvariant 3 [⟨1, 1, 1, []⟩, ⟨2, 1, 1, []⟩] := by
    refine ⟨?_, by decide⟩
    refine List.pairwise_cons.mpr ⟨?_, List.pairwise_singleton _ _⟩
    intro b hb
    rw [List.mem_singleton.mp hb]
    decide
  have h := ledger_invariant_preserved 3 ⟨2, 5, 5, []⟩ _ hinv
  exact ⟨hinv, h.1, h.2.1⟩

/-! ## Theorems for the window gate configuration errors -/

/-- C7: a non-positive freshness horizon, or a computed window whose start is
at or after its end, makes the run fail fast with a fatal configuration error
and no remote call is made. -/
theorem config_error_fail_fast (cfg : PipelineConfig) (aiOf : CandidateItem → ℚ)
    (nowMs dayStartMs : Int) (items : List CandidateItem)
    (h : cfg.horizonDays ≤ 0
      ∨ (rawWindow cfg nowMs dayStartMs).wend ≤ (rawWindow cfg nowMs dayStartMs).wstart) :
    runPipeline cfg aiOf nowMs dayStartMs items
      = (.error .configurationError, []) := by
  have hcw : computeWindow cfg nowMs dayStartMs = .error .configurationError := by
    by_cases h0 : cfg.horizonDays ≤ 0
    · rw [computeWindow, if_pos h0]
    · rcases h with h | h
      · exact absurd h h0
      · rw [computeWindow, if_neg h0, if_pos h]
  simp [runPipeline, hcw]

/-- C7 witness: a zero freshness horizon aborts the run with a configuration
error and an empty remote-call log. -/
theorem config_error_fail_fast_witness :
    (zeroHorizonConfig.horizonDays ≤ 0
      ∨ (rawWindow zeroHorizonConfig 1000 500).wend
          ≤ (rawWindow zeroHorizonConfig 1000 500).wstart)
    ∧ runPipeline zeroHorizonConfig sampleAi 1000 500 [sampleNews]
        = (.error .configurationError, []) := by
  refine ⟨Or.inl (by decide), ?_⟩
  exact config_error_fail_fast zeroHorizonConfig sampleAi 1000 500 [sampleNews]
    (Or.inl (by decide))

end MorningTide
